import Mathlib

/-!
Verification of the SteinLine pipeline engine against its specification.

The definitions below are a shallow embedding of the repository's core
modules:

* stein_line/core/analysis_worker.py  (the Batch Reasoner loop)
* stein_line/core/registry_worker.py  (the Fingerprint Scanner)
* stein_line/core/checkpoint_manager.py
* stein_line/utils/db_handler.py      (SQLite schemas and stores)

Python strings are modelled as Lean String (slicing on them as take and
drop over the character list), SQLite tables as Lean lists of row
structures with the write statements' key semantics made explicit, and
external collaborators (the extraction adapter, the vLLM backend, the
filesystem probes) as explicit function parameters.  File paths use the
forward-slash separator.  The nondeterministic completion order of
thread-pool futures is modelled as submission order; every theorem
below is insensitive to that order.
-/

namespace SteinLine

/-- Opening-brace character, kept as a named constant. -/
def lbrace : Char := Char.ofNat 123

/-- Closing-brace character. -/
def rbrace : Char := Char.ofNat 125

/-!
Model of the tolerant fact parser in AnalysisWorker.run (lines 168-189).

The worker extracts every brace-delimited, brace-free substring of the
raw model output with the regular expression pattern of a left brace,
a run of non-brace characters, and a right brace, and then feeds each
match independently to Python's strict JSON decoder.
-/

/-- One pass of the regex scan.  The state is none while outside a
candidate match and some acc while inside one, where acc holds the
characters seen since the latest unmatched opening brace (reversed).
Hitting a further opening brace restarts the candidate there, exactly
as the leftmost-match rule of re.findall behaves on this pattern. -/
def extractAux : Option (List Char) → List Char → List (List Char)
  | _, [] => []
  | none, c :: rest =>
      if c = lbrace then extractAux (some []) rest
      else extractAux none rest
  | some acc, c :: rest =>
      if c = rbrace then (lbrace :: (acc.reverse ++ [rbrace])) :: extractAux none rest
      else if c = lbrace then extractAux (some []) rest
      else extractAux (some (c :: acc)) rest

/-- All matches of the brace-delimited-object pattern in the raw text,
in order: model of re.findall in AnalysisWorker.run line 175. -/
def extractObjects (raw : String) : List String :=
  (extractAux none raw.data).map (fun cs => String.mk cs)

/-- Model of item.replace applied to each match in line 178: every
newline character becomes a space. -/
def replaceNl (s : String) : String :=
  String.mk (s.data.map (fun c => if c = '\n' then ' ' else c))

/-- JSON whitespace. -/
def isWs (c : Char) : Bool := c = ' ' || c = '\t' || c = '\n' || c = '\r'

/-- Drop leading JSON whitespace. -/
def skipWs : List Char → List Char
  | [] => []
  | c :: rest => if isWs c then skipWs rest else c :: rest

/-- Body of a JSON string after its opening quote: characters up to the
closing quote.  Escape sequences are not modelled (no input used by any
theorem contains a backslash); a backslash makes the parse fail. -/
def parseJStringBody (acc : List Char) : List Char → Option (String × List Char)
  | [] => none
  | c :: rest =>
      if c = '"' then some (String.mk acc.reverse, rest)
      else if c = '\\' then none
      else parseJStringBody (c :: acc) rest

/-- A JSON string literal at the head of the input. -/
def parseJString : List Char → Option (String × List Char)
  | [] => none
  | c :: rest => if c = '"' then parseJStringBody [] rest else none

/-- Members of a JSON object after its opening brace, ending at the
closing brace which must be followed by whitespace only.  This is the
strict RFC 8259 grammar that Python's json.loads implements, restricted
to flat objects with string keys and string values (the regex above
never yields nested braces; no theorem below feeds non-string values).
In particular a comma must be followed by another key-value pair: a
trailing comma before the closing brace is a decode error, exactly as
in json.loads.  The fuel argument only serves termination; each
iteration consumes at least one input character, so input length plus
one is always sufficient. -/
def parseMembers : Nat → List (String × String) → List Char → Option (List (String × String))
  | 0, _, _ => none
  | fuel + 1, acc, l =>
    match parseJString (skipWs l) with
    | none => none
    | some (k, r1) =>
      match skipWs r1 with
      | ':' :: r2 =>
        match parseJString (skipWs r2) with
        | none => none
        | some (v, r3) =>
          match skipWs r3 with
          | [] => none
          | c :: r4 =>
            if c = ',' then parseMembers fuel ((k, v) :: acc) r4
            else if c = rbrace then
              if skipWs r4 = [] then some ((k, v) :: acc).reverse else none
            else none
      | _ => none

/-- Model of json.loads restricted to flat string-valued objects: the
whole input must be a single object surrounded by whitespace only. -/
def jsonLoads (s : String) : Option (List (String × String)) :=
  match skipWs s.data with
  | [] => none
  | c :: rest =>
    if c = lbrace then
      match skipWs rest with
      | [] => none
      | d :: r2 =>
        if d = rbrace then (if skipWs r2 = [] then some [] else none)
        else parseMembers (s.data.length + 1) [] rest
    else none

/-- Model of dict.get with a default on a decoded object.  Python's
json decoder keeps the last occurrence of a duplicated key. -/
def pyGet (f : List (String × String)) (k dflt : String) : String :=
  (((f.reverse).find? (fun kv => kv.1 = k)).map (fun kv => kv.2)).getD dflt

/-- The decoded objects recovered from one raw model response:
model of the per-output parse loop in AnalysisWorker.run lines 174-189,
where each extracted brace-delimited substring is decoded independently
and decode failures are silently skipped. -/
def parseFacts (raw : String) : List (List (String × String)) :=
  (extractObjects raw).filterMap (fun item => jsonLoads (replaceNl item))

/-!
Model of the intelligence table (db_handler.py lines 76-89) and of the
rows the Reasoner persists into it (analysis_worker.py lines 179-187,
232, 294-324).
-/

/-- One row of the intelligence table.  The live schema has exactly the
eight columns below; _save introspects them, drops a hypothetical id
column, and truncates longer input tuples, so the nine-element
placeholder tuple of run line 232 loses its trailing None timestamp. -/
structure IntelRow where
  fingerprint : String
  filename : String
  evidence_quote : String
  associated_date : String
  fact_summary : String
  category : String
  identified_crime : String
  severity_score : Nat
deriving DecidableEq, Repr

/-- The declared primary key of the intelligence table. -/
def intelKey (r : IntelRow) : String × String × String :=
  (r.fingerprint, r.filename, r.evidence_quote)

/-- One INSERT OR REPLACE: any existing row with the same primary key
is replaced by the incoming row. -/
def upsertRow (t : List IntelRow) (r : IntelRow) : List IntelRow :=
  (t.filter (fun q => ¬ intelKey q = intelKey r)) ++ [r]

/-- Model of SteinLineDB._save writing a batch of rows in order
(executemany of INSERT OR REPLACE inside one transaction). -/
def upsertFacts (t : List IntelRow) (rs : List IntelRow) : List IntelRow :=
  rs.foldl upsertRow t

/-- The row built for one decoded fact object in run lines 179-187.
The tuple is positional: the object's source string lands in the
evidence_quote column, and the severity_score position holds the
literal constant 1. -/
def factRowOf (fp fname : String) (f : List (String × String)) : IntelRow :=
  { fingerprint := fp
    filename := fname
    evidence_quote := pyGet f "source" "N/A"
    associated_date := pyGet f "date" "Unknown"
    fact_summary := pyGet f "summary" ""
    category := pyGet f "type" "General"
    identified_crime := pyGet f "crime" "None"
    severity_score := 1 }

/-- All persisted rows obtained from one raw model response for the
file tagged (fp, fname). -/
def factRowsOf (fp fname : String) (raw : String) : List IntelRow :=
  (parseFacts raw).map (factRowOf fp fname)

/-- Model of pathlib Path(path).name with forward-slash separators:
the characters after the last slash. -/
def basename (p : String) : String :=
  String.mk ((p.data.reverse.takeWhile (fun c => decide (¬ c = '/'))).reverse)

/-- The placeholder row of run line 232 after _save truncates it to the
live eight columns: empty quote and summary, severity 0. -/
def placeholderRow (fp path : String) : IntelRow :=
  { fingerprint := fp
    filename := basename path
    evidence_quote := ""
    associated_date := ""
    fact_summary := ""
    category := "General"
    identified_crime := ""
    severity_score := 0 }

/-!
Sliding window and prompt construction (analysis_worker.py lines
120-125 and 256-257).
-/

/-- Model of Python range(0, stop, step) for a positive step. -/
def pyRange (stop step : Nat) : List Nat :=
  (List.range ((stop + step - 1) / step)).map (fun i => i * step)

/-- Model of the window comprehension of run line 122 on one extracted
text: slices of twenty thousand characters starting every eighteen
thousand characters, so consecutive slices share two thousand
characters. -/
def window (text : List Char) : List (List Char) :=
  (pyRange text.length 18000).map (fun i => (text.drop i).take 20000)

/-- Model of AnalysisWorker._build_p (lines 256-257). -/
def build_p (fn txt : String) : String :=
  "<|im_start|>system\nExtract JSON: source, date, summary, type, crime, severity.<|im_end|>\n<|im_start|>user\nFILE: "
    ++ fn ++ "\nDATA: " ++ txt
    ++ "<|im_end|>\n<|im_start|>assistant\n\x7b\"findings\": ["

/-!
The adaptive generate-or-shrink loop (analysis_worker.py lines
144-166) and sub-batch slicing (line 140).
-/

/-- Model of the while loop of run lines 147-166, generic over the
element type (sub_prompts and sub_meta are truncated in lock step, so
an element stands for a meta-prompt pair).  The backend is abstracted
by which batch sizes it accepts.  A rejected call halves
gen_attempt_chunk; once the halved size reaches one the sub-batch is
abandoned (the warning is emitted and outputs is set empty), and
otherwise the sub-batch is truncated to its first gen_attempt_chunk
elements and the call is retried.  Returns the list of attempted
batches in call order together with the surviving accepted batch
(empty when abandoned). -/
def genLoopF : Nat → (Nat → Bool) → List α → Nat → List (List α) × List α
  | 0, _, _, _ => ([], [])
  | fuel + 1, accepts, sub, k =>
    if accepts sub.length then ([sub], sub)
    else if max 1 (k / 2) = 1 then ([sub], [])
    else
      let r := genLoopF fuel accepts (sub.take (max 1 (k / 2))) (max 1 (k / 2))
      (sub :: r.1, r.2)

/-- The adaptive loop with its fuel fixed at one more than the starting
chunk size.  gen_attempt_chunk strictly decreases on every retry, so
the loop makes at most k further calls and the fuel never runs out:
the zero-fuel branch above is unreachable from here. -/
def genLoop (accepts : Nat → Bool) (sub : List α) (k : Nat) :
    List (List α) × List α :=
  genLoopF (k + 1) accepts sub k

/-- The sub-batch slicing of run lines 140-142: consecutive slices of
llm_chunk prompts.  Python's range raises on a zero step, so a zero
chunk size is modelled as producing no sub-batches; theorems assume a
positive chunk size. -/
def chunksOfF : Nat → Nat → List α → List (List α)
  | _, _, [] => []
  | 0, _, _ :: _ => []
  | fuel + 1, k, x :: xs =>
    if k = 0 then []
    else (x :: xs).take k :: chunksOfF fuel k ((x :: xs).drop k)

/-- The slicing with its fuel fixed at the list length; every
iteration on a positive chunk size drops at least one element, so the
fuel never runs out. -/
def chunksOf (k : Nat) (l : List α) : List (List α) :=
  chunksOfF l.length k l

/-- Every batch of prompts handed to the backend over a whole cycle, in
call order. -/
def attemptsTrace (accepts : Nat → Bool) (prompts : List α) (k : Nat) :
    List (List α) :=
  ((chunksOf k prompts).map (fun sub => (genLoop accepts sub k).1)).flatten

/-- How many backend calls included a given segment. -/
def timesAttempted [DecidableEq α] (x : α) (trace : List (List α)) : Nat :=
  trace.countP (fun a => decide (x ∈ a))

/-!
The Batch Reasoner cycle (analysis_worker.py lines 79-249).
-/

/-- The cycle's external collaborators and configuration.  extract
models Deconstructor.extract through the try of run lines 111-114: none
stands for a raised exception, and an empty string result is likewise
dropped by the falsiness test of line 115.  respond gives the backend's
raw generated text for a prompt, and accepts the backend's capacity by
sub-batch size. -/
structure ReasonerEnv where
  extract : String → Option String
  respond : String → String
  accepts : Nat → Bool
  llmChunk : Nat
  maxFilesPerCycle : Nat

/-- The mutable state the run loop threads between cycles, plus the
sequence of checkpoint writes (processed, total_facts) made so far. -/
structure ReasonerState where
  intel : List IntelRow
  procCount : Nat
  factCount : Nat
  checkpoints : List (Nat × Nat)
deriving DecidableEq, Repr

/-- The successful nonempty extractions of a batch, in order, as
(fingerprint, filename, text) triples (run lines 106-117). -/
def extractionsOf (env : ReasonerEnv) (batch : List (String × String)) :
    List (String × String × String) :=
  batch.filterMap (fun fpPath =>
    match env.extract fpPath.2 with
    | none => none
    | some t => if t = "" then none else some (fpPath.1, basename fpPath.2, t))

/-- The meta-prompt pairs of a cycle (run lines 119-125): one prompt
per window slice of each extracted text, tagged with its fingerprint
and filename. -/
def promptsOf (env : ReasonerEnv) (batch : List (String × String)) :
    List ((String × String) × String) :=
  ((extractionsOf env batch).map (fun e =>
    (window e.2.2.data).map (fun c => ((e.1, e.2.1), build_p e.2.1 (String.mk c))))).flatten

/-- The rows parsed out of one sub-batch: the surviving meta-prompt
pairs of the adaptive loop, each response decoded into fact rows (run
lines 168-189). -/
def chunkResults (env : ReasonerEnv) (sub : List ((String × String) × String)) :
    List IntelRow :=
  (((genLoop env.accepts sub env.llmChunk).2).map
    (fun m => factRowsOf m.1.1 m.1.2 (env.respond m.2))).flatten

/-- Processing of one sub-batch (run lines 140-213): nonempty results
are upserted at once, the fact counter grows by their number, and a
checkpoint is written carrying proc_count plus the capped batch length
(proc_count itself is only advanced at the end of the cycle) and the
new cumulative fact count.  A sub-batch with no results writes
nothing. -/
def cycleStep (env : ReasonerEnv) (batchLen baseProc : Nat)
    (s : ReasonerState) (sub : List ((String × String) × String)) : ReasonerState :=
  let results := chunkResults env sub
  if results = [] then s
  else
    { s with
      intel := upsertFacts s.intel results
      factCount := s.factCount + results.length
      checkpoints := s.checkpoints ++ [(baseProc + batchLen, s.factCount + results.length)] }

/-- The batch actually processed: the fetched rows capped at
max_files_per_cycle (run lines 96-99). -/
def cappedBatch (env : ReasonerEnv) (fetched : List (String × String)) :
    List (String × String) :=
  fetched.take env.maxFilesPerCycle

/-- The sub-batches a cycle hands to the adaptive loop. -/
def cycleSubs (env : ReasonerEnv) (batch : List (String × String)) :
    List (List ((String × String) × String)) :=
  chunksOf env.llmChunk (promptsOf env batch)

/-- The processed_fps set at the end of the chunk loop: the
fingerprints of every row parsed in the cycle (run lines 195-199). -/
def processedFpsOf (env : ReasonerEnv) (batch : List (String × String)) :
    List String :=
  (((cycleSubs env batch).map (chunkResults env)).flatten).map (fun r => r.fingerprint)

/-- The placeholder rows of run lines 228-232: one per batch entry
whose fingerprint produced no parsed row. -/
def placeholdersOf (env : ReasonerEnv) (batch : List (String × String)) :
    List IntelRow :=
  (batch.filter (fun fpPath => decide (¬ fpPath.1 ∈ processedFpsOf env batch))).map
    (fun fpPath => placeholderRow fpPath.1 fpPath.2)

/-- One full cycle of AnalysisWorker.run on an already-fetched batch.
When no file yields a prompt the cycle hits the continue of line 134:
nothing is written and even proc_count stays put.  Otherwise the
sub-batches are processed in order, afterwards the placeholder rows are
upserted (lines 226-237; the guard on a nonempty placeholder list is
dropped because upserting an empty list changes nothing), and finally
proc_count advances by the capped batch length (line 248). -/
def runCycle (env : ReasonerEnv) (fetched : List (String × String))
    (st : ReasonerState) : ReasonerState :=
  let batch := cappedBatch env fetched
  if promptsOf env batch = [] then st
  else
    let st1 := (cycleSubs env batch).foldl (cycleStep env batch.length st.procCount) st
    { st1 with
      intel := upsertFacts st1.intel (placeholdersOf env batch)
      procCount := st.procCount + batch.length }

/-- A whole run: the loop of run lines 79-249 over the successive
fetched batches, starting from fresh counters (lines 76-77). -/
def runCycles (env : ReasonerEnv) (batches : List (List (String × String)))
    (st : ReasonerState) : ReasonerState :=
  batches.foldl (fun s b => runCycle env b s) st

/-- The state at the start of a run: whatever the intelligence store
holds, zero counters, no checkpoint written yet. -/
def initialState (intel : List IntelRow) : ReasonerState :=
  { intel := intel, procCount := 0, factCount := 0, checkpoints := [] }

/-!
The registry store and the diff query (db_handler.py lines 62-73,
analysis_worker.py lines 259-292).
-/

/-- One row of the registry table. -/
structure RegRow where
  fingerprint : String
  path : String
  is_primary : Nat
deriving DecidableEq, Repr

/-- The fingerprint column of a registry table. -/
def regFps (t : List RegRow) : List String := t.map (fun q => q.fingerprint)

/-- The path column of a registry table, as loaded into the scanner's
known-path cache. -/
def regPaths (t : List RegRow) : List String := t.map (fun q => q.path)

/-- INSERT OR IGNORE into the registry: per the schema of db_handler.py
line 68 the primary key is the fingerprint column alone, so a row whose
fingerprint is already present is dropped whatever its path. -/
def registryInsert (t : List RegRow) (r : RegRow) : List RegRow :=
  if r.fingerprint ∈ regFps t then t else t ++ [r]

/-- The content-bearing extensions of _get_batch line 272. -/
def allowedExts : List String :=
  [".pdf", ".txt", ".md", ".docx", ".doc", ".jpg", ".jpeg", ".png",
   ".tif", ".tiff", ".mp3", ".wav", ".m4a", ".mp4"]

/-- Whether the first list starts with the second. -/
def startsWithChars : List Char → List Char → Bool
  | _, [] => true
  | [], _ :: _ => false
  | a :: as, b :: bs => a = b && startsWithChars as bs

/-- ASCII lower-casing of one character, as str.lower acts on the
ASCII paths all theorems use. -/
def lowerChar (c : Char) : Char :=
  if 65 ≤ c.toNat ∧ c.toNat ≤ 90 then Char.ofNat (c.toNat + 32) else c

/-- Model of str.lower. -/
def lowerStr (s : String) : String := String.mk (s.data.map lowerChar)

/-- Model of str.endswith. -/
def endsWithStr (s suf : String) : Bool :=
  startsWithChars s.data.reverse suf.data.reverse

/-- Whether need occurs as a contiguous substring, modelling Python's
in operator on strings. -/
def hasSub (need : List Char) : List Char → Bool
  | [] => startsWithChars [] need
  | c :: t => startsWithChars (c :: t) need || hasSub need t

/-- Whether pathlib's suffix of the path is empty: its final component
has no dot beyond a possible leading one. -/
def suffixEmpty (path : String) : Bool :=
  !(((basename path).data.drop 1).contains '.')

/-- The path filter of _get_batch lines 271-289.  The probe argument
abstracts the filesystem checks on extensionless paths (the path exists
and its size exceeds 1024 bytes); an exception there makes the code
skip the row, which the probe models by returning false. -/
def allowedPath (probe : String → Bool) (path : String) : Bool :=
  let p := lowerStr path
  if endsWithStr p "-shm" || endsWithStr p "-wal" || endsWithStr p ".db"
      || hasSub ".db-".data p.data || endsWithStr p ".sqlite" then false
  else if allowedExts.any (fun e => endsWithStr p e) then true
  else suffixEmpty path && probe path

/-- The Python-side filter applied to the fetched rows. -/
def pathFilter (probe : String → Bool) (rows : List (String × String)) :
    List (String × String) :=
  rows.filter (fun r => allowedPath probe r.2)

/-- The diff query of _get_batch lines 264-269 plus the Python filter:
registry rows with no intelligence row of the same fingerprint, up to
the LIMIT, then filtered by path. -/
def diffUnprocessed (probe : String → Bool) (limit : Nat)
    (reg : List RegRow) (intel : List IntelRow) : List (String × String) :=
  pathFilter probe
    (((reg.filter (fun r => !(intel.any (fun i => i.fingerprint = r.fingerprint)))).take limit).map
      (fun r => (r.fingerprint, r.path)))

/-- Model of _get_batch as a whole (lines 259-292): any exception
inside the try block — opening the store, the ATTACH of the
intelligence database, the query itself — lands in the bare except
clause of line 292, which returns the empty list; otherwise the fetched
rows pass the path filter. -/
def getBatch (probe : String → Bool)
    (fetched : Except String (List (String × String))) : List (String × String) :=
  match fetched with
  | Except.error _ => []
  | Except.ok rows => pathFilter probe rows

/-- What the main loop does with a fetched batch. -/
inductive LoopAction where
  | exhausted
  | process (batch : List (String × String))
deriving DecidableEq, Repr

/-- The main-loop reaction of run lines 91-94: an empty batch emits the
QUEUE_EXHAUSTED status and breaks out of the loop, after which the run
ends normally with the ENGINE_IDLE status and the finished signal. -/
def loopDecision (batch : List (String × String)) : LoopAction :=
  if batch = [] then LoopAction.exhausted else LoopAction.process batch

/-!
The Fingerprint Scanner (registry_worker.py).
-/

/-- A completed, unpaused, uncancelled RegistryWorker.run over a source
tree given as (path, content) pairs in walk order.  The known-path
cache is loaded once from the registry's path column at start (lines
59-63); a path in the cache is skipped without hashing (line 108), and
every other file is submitted for hashing.  hash_file (lines 42-51) is
a pure function of the file content, returning none when reading
raises; such tombstones are skipped without commit (line 140).
Successful hashes are committed with INSERT OR IGNORE — the block
buffering of lines 153-156 and the final flush of line 199 commit every
buffered pair exactly once, in order, so the final table does not
depend on the block size.  The fold also records which paths were
submitted for hashing.  Thread-pool retirement order is modelled as
walk order.  This is the handling of one walked file. -/
def scanStep (h : String → Option String) (existing : List String)
    (acc : List RegRow × List String) (pc : String × String) :
    List RegRow × List String :=
  if pc.1 ∈ existing then acc
  else
    match h pc.2 with
    | none => (acc.1, acc.2 ++ [pc.1])
    | some fp =>
      (registryInsert acc.1 { fingerprint := fp, path := pc.1, is_primary := 1 },
       acc.2 ++ [pc.1])

/-- The whole scan: the fold of scanStep over the walk, with the
known-path cache taken from the starting registry. -/
def scannerRun (h : String → Option String) (files : List (String × String))
    (reg : List RegRow) : List RegRow × List String :=
  files.foldl (scanStep h (regPaths reg)) (reg, [])

/-!
Theorems.
-/

/-- Claim C1: the claim says two byte-identical files at two distinct
paths end up as two distinct registry rows sharing one fingerprint,
persisting being keyed on the fingerprint-path pair.  The code's schema
keys the registry on the fingerprint alone, so on the failing input —
two paths with equal content — both files are hashed to the same
fingerprint but the second INSERT OR IGNORE is dropped: a completed
run leaves exactly one row. -/
theorem c1_duplicate_content_single_row :
    (scannerRun (fun c => some ("sha-" ++ c)) [("/tree/a.txt", "X"), ("/tree/b.txt", "X")] []).1
      = [{ fingerprint := "sha-X", path := "/tree/a.txt", is_primary := 1 }] ∧
    ((scannerRun (fun c => some ("sha-" ++ c)) [("/tree/a.txt", "X"), ("/tree/b.txt", "X")] []).1).length = 1 ∧
    (scannerRun (fun c => some ("sha-" ++ c)) [("/tree/a.txt", "X"), ("/tree/b.txt", "X")] []).2
      = ["/tree/a.txt", "/tree/b.txt"] := by
  decide

/-- Claim C2, counterexample: a fetched batch whose only file fails
extraction produces no prompts, so the cycle takes the continue branch
and writes no Intelligence row at all — the file is returned again by
the diff query, against the claim that every batch member ends the
cycle with at least one row. -/
theorem c2_counterexample :
    (runCycle ⟨fun _ => none, fun _ => "", fun _ => true, 20, 64⟩
      [("f1", "a.txt")] (initialState [])).intel = [] ∧
    ("f1", "a.txt") ∈ diffUnprocessed (fun _ => false) 500
      [{ fingerprint := "f1", path := "a.txt", is_primary := 1 }]
      ((runCycle ⟨fun _ => none, fun _ => "", fun _ => true, 20, 64⟩
        [("f1", "a.txt")] (initialState [])).intel) := by
  decide

/-- Claim C3, counterexample: with a chunk size of 4, four segments and
a backend rejecting every batch of size above one, the first call
attempts all four segments and the retry attempts only the truncated
prefix of two — not the same sub-batch — so segments 0 and 1 are
attempted twice, refuting that every segment is attempted exactly
once. -/
theorem c3_counterexample :
    attemptsTrace (fun n => decide (n ≤ 1)) [0, 1, 2, 3] 4 = [[0, 1, 2, 3], [0, 1]] ∧
    timesAttempted 0 (attemptsTrace (fun n => decide (n ≤ 1)) [0, 1, 2, 3] 4) = 2 ∧
    ¬ ∀ p ∈ [0, 1, 2, 3], timesAttempted p (attemptsTrace (fun n => decide (n ≤ 1)) [0, 1, 2, 3] 4) = 1 := by
  decide

/-- Claim C4, counterexample: file f1 fails extraction while its batch
mate f2 extracts but yields no facts; the end-of-cycle placeholder loop
runs over the whole batch, so the extraction-failed f1 still receives a
placeholder Intelligence row and is not returned again by the diff
query — against the claim that it remains unprocessed and is
retried. -/
theorem c4_counterexample :
    placeholderRow "f1" "a.txt" ∈
      (runCycle ⟨fun p => if p = "b.txt" then some "hello" else none, fun _ => "", fun _ => true, 20, 64⟩
        [("f1", "a.txt"), ("f2", "b.txt")] (initialState [])).intel ∧
    diffUnprocessed (fun _ => false) 500
      [{ fingerprint := "f1", path := "a.txt", is_primary := 1 },
       { fingerprint := "f2", path := "b.txt", is_primary := 1 }]
      ((runCycle ⟨fun p => if p = "b.txt" then some "hello" else none, fun _ => "", fun _ => true, 20, 64⟩
        [("f1", "a.txt"), ("f2", "b.txt")] (initialState [])).intel) = [] := by
  decide

/-- Claim C5, counterexample: on the quoted response text the regex
extracts the A and B objects, but Python's strict JSON decoder rejects
the B object for its trailing comma, so exactly one fact is parsed,
not two. -/
theorem c5_counterexample :
    ((parseFacts "\x7b\"source\":\"A\"\x7d garbage \x7b\"source\":\"B\",\x7d \x7bmalformed").length = 1) ∧
    ¬ ((parseFacts "\x7b\"source\":\"A\"\x7d garbage \x7b\"source\":\"B\",\x7d \x7bmalformed").length = 2) := by
  decide

/-- Claim C5, amended: the same input yields exactly one fact record —
source A with the documented defaults for its missing fields — the
trailing-comma object and the unclosed brace being rejected without
invalidating it.  Both brace-delimited candidates are extracted, and
the malformed ones fail decoding individually. -/
theorem c5_parser_tolerance :
    extractObjects "\x7b\"source\":\"A\"\x7d garbage \x7b\"source\":\"B\",\x7d \x7bmalformed"
      = ["\x7b\"source\":\"A\"\x7d", "\x7b\"source\":\"B\",\x7d"] ∧
    parseFacts "\x7b\"source\":\"A\"\x7d garbage \x7b\"source\":\"B\",\x7d \x7bmalformed"
      = [[("source", "A")]] ∧
    factRowsOf "f1" "doc.pdf" "\x7b\"source\":\"A\"\x7d garbage \x7b\"source\":\"B\",\x7d \x7bmalformed"
      = [{ fingerprint := "f1", filename := "doc.pdf", evidence_quote := "A",
           associated_date := "Unknown", fact_summary := "", category := "General",
           identified_crime := "None", severity_score := 1 }] := by
  decide

/-- Claim C6, counterexample: a parsed object whose severity value is
the digit string 9 is persisted with severity_score 1, not 9: the
persistence path ignores the severity value entirely (the first-digit
coercion lives only in the ui display layer, nodes.py lines 21-28). -/
theorem c6_counterexample :
    ((factRowsOf "f1" "a.txt" "\x7b\"source\":\"X\",\"severity\":\"9\"\x7d").map
      (fun r => r.severity_score)) = [1] ∧
    ¬ ((factRowsOf "f1" "a.txt" "\x7b\"source\":\"X\",\"severity\":\"9\"\x7d").map
      (fun r => r.severity_score)) = [9] := by
  decide

/-- Claim C6, amended: every persisted parsed-fact row carries the
constant severity_score 1 whatever the object's severity value; the
other fields are stored as strings with their documented defaults. -/
theorem c6_severity_always_one (fp fname raw : String) :
    ∀ r ∈ factRowsOf fp fname raw, r.severity_score = 1 := by
  intro r hr
  simp only [factRowsOf, List.mem_map] at hr
  obtain ⟨f, _, rfl⟩ := hr
  rfl

/-- Witness for c6_severity_always_one at a concrete parsed row. -/
theorem c6_severity_always_one_witness :
    ∃ r ∈ factRowsOf "f1" "a.txt" "\x7b\"source\":\"X\",\"severity\":\"9\"\x7d",
      r.severity_score = 1 := by
  refine ⟨factRowOf "f1" "a.txt" [("source", "X"), ("severity", "9")], by decide, ?_⟩
  exact c6_severity_always_one "f1" "a.txt" "\x7b\"source\":\"X\",\"severity\":\"9\"\x7d" _ (by decide)

/-- Claim C8, counterexample: after a completed first scan of a tree
holding duplicate content at paths a and b, only path a is in the
registry (the fingerprint-keyed schema dropped b), so a second scan of
the unchanged tree finds b absent from the known-path set and rehashes
it — against the claim that every path is already known and no file is
rehashed. -/
theorem c8_counterexample :
    (scannerRun (fun c => some c) [("a", "X"), ("b", "X")]
      ((scannerRun (fun c => some c) [("a", "X"), ("b", "X")] []).1)).2 = ["b"] ∧
    ¬ "b" ∈ (((scannerRun (fun c => some c) [("a", "X"), ("b", "X")] []).1).map
      (fun r => r.path)) := by
  decide

/-- Claim C10: a fetch that raises — a locked store, a failing ATTACH —
returns the empty list through the bare except clause, and the main
loop reacts to it exactly as to a genuinely empty diff: the
QUEUE_EXHAUSTED decision, after which the run ends normally. -/
theorem c10_fetch_error_like_empty (probe : String → Bool) (e : String) :
    getBatch probe (Except.error e) = [] ∧
    loopDecision (getBatch probe (Except.error e)) = LoopAction.exhausted ∧
    loopDecision (getBatch probe (Except.error e))
      = loopDecision (getBatch probe (Except.ok [])) := by
  exact ⟨rfl, rfl, rfl⟩

/-- Claim C7: a 45,000-character extracted text under the
20,000-character window with 18,000-character stride yields exactly 3
segments, the second starting at character offset 18,000, and
consecutive segments sharing 2,000 characters. -/
theorem c7_window_segments (text : List Char) (h : text.length = 45000) :
    pyRange text.length 18000 = [0, 18000, 36000] ∧
    window text
      = [text.take 20000, (text.drop 18000).take 20000, (text.drop 36000).take 20000] ∧
    (window text).length = 3 ∧
    ((text.drop 18000).take 20000).take 2000 = (text.take 20000).drop 18000 := by
  have hr : pyRange text.length 18000 = [0, 18000, 36000] := by rw [h]; decide
  refine ⟨hr, ?_, ?_, ?_⟩
  · rw [window, hr]; simp
  · rw [window, hr]; simp
  · rw [List.take_take, List.drop_take]; norm_num

/-- Witness for c7_window_segments on a concrete 45,000-character
text. -/
theorem c7_window_segments_witness :
    (List.replicate 45000 'a').length = 45000 ∧
    (window (List.replicate 45000 'a')).length = 3 :=
  ⟨List.length_replicate 45000 'a',
   (c7_window_segments (List.replicate 45000 'a') (List.length_replicate 45000 'a')).2.2.1⟩

/-- The first backend call of the adaptive loop always carries the
whole sub-batch, whatever its outcome. -/
theorem genLoopF_first (accepts : Nat → Bool) (sub : List α) (k fuel : Nat) :
    ∃ t, (genLoopF (fuel + 1) accepts sub k).1 = sub :: t := by
  rw [genLoopF]
  by_cases h1 : accepts sub.length
  · exact ⟨[], by rw [if_pos h1]⟩
  · rw [if_neg h1]
    by_cases h2 : max 1 (k / 2) = 1
    · exact ⟨[], by rw [if_pos h2]⟩
    · rw [if_neg h2]
      exact ⟨(genLoopF fuel accepts (sub.take (max 1 (k / 2))) (max 1 (k / 2))).1, rfl⟩

/-- Same statement through the fuel-fixing wrapper. -/
theorem genLoop_first (accepts : Nat → Bool) (sub : List α) (k : Nat) :
    ∃ t, (genLoop accepts sub k).1 = sub :: t :=
  genLoopF_first accepts sub k k

/-- Every element of the prompt list lands in one of its slices. -/
theorem mem_chunksOfF_of_mem (k fuel : Nat) (l : List α) (hl : l.length ≤ fuel)
    (hk : 1 ≤ k) (p : α) (hp : p ∈ l) : ∃ sub ∈ chunksOfF fuel k l, p ∈ sub := by
  induction fuel generalizing l with
  | zero =>
    cases l with
    | nil => cases hp
    | cons x xs => simp at hl
  | succ fuel ih =>
    cases l with
    | nil => cases hp
    | cons x xs =>
      rw [chunksOfF, if_neg (by omega)]
      rw [← List.take_append_drop k (x :: xs)] at hp
      rcases List.mem_append.mp hp with hp | hp
      · exact ⟨(x :: xs).take k, List.mem_cons_self _ _, hp⟩
      · obtain ⟨sub, hsub, hmem⟩ := ih ((x :: xs).drop k)
          (by simp only [List.length_drop, List.length_cons] at hl ⊢; omega) hp
        exact ⟨sub, List.mem_cons_of_mem _ hsub, hmem⟩

/-- Claim C3, amended: the rejected sub-batch is retried only as its
truncated prefix, so what holds is that against any backend — in
particular one rejecting every batch of size above one — every segment
of the run is attempted at least once (its sub-batch's first call
carries all of its segments), segments inside retried prefixes being
attempted more than once. -/
theorem c3_every_segment_attempted (accepts : Nat → Bool) (prompts : List α)
    (k : Nat) (hk : 1 ≤ k) :
    ∀ p ∈ prompts, ∃ a ∈ attemptsTrace accepts prompts k, p ∈ a := by
  intro p hp
  obtain ⟨sub, hsub, hmem⟩ :=
    mem_chunksOfF_of_mem k prompts.length prompts (le_refl _) hk p hp
  obtain ⟨t, ht⟩ := genLoop_first accepts sub k
  refine ⟨sub, ?_, hmem⟩
  rw [attemptsTrace, List.mem_flatten]
  refine ⟨(genLoop accepts sub k).1, List.mem_map_of_mem _ hsub, ?_⟩
  rw [ht]
  exact List.mem_cons_self _ _

/-- Witness for c3_every_segment_attempted against the backend that
rejects every batch of size above one. -/
theorem c3_every_segment_attempted_witness :
    (1 ≤ 4 ∧ (0 : Nat) ∈ [0, 1, 2, 3]) ∧
    ∃ a ∈ attemptsTrace (fun n => decide (n ≤ 1)) [0, 1, 2, 3] 4, (0 : Nat) ∈ a :=
  ⟨⟨by decide, by decide⟩,
   c3_every_segment_attempted (fun n => decide (n ≤ 1)) [0, 1, 2, 3] 4 (by decide) 0 (by decide)⟩

/-- Rows already present survive an INSERT OR IGNORE. -/
theorem mem_registryInsert (t : List RegRow) (r q : RegRow) (hq : q ∈ t) :
    q ∈ registryInsert t r := by
  rw [registryInsert]
  split
  · exact hq
  · exact List.mem_append_left _ hq

/-- After an INSERT OR IGNORE the inserted fingerprint is present. -/
theorem fp_mem_registryInsert (t : List RegRow) (r : RegRow) :
    r.fingerprint ∈ regFps (registryInsert t r) := by
  rw [registryInsert]
  split
  · assumption
  · exact List.mem_map_of_mem _ (List.mem_append_right _ (List.mem_singleton.mpr rfl))

/-- A registry row survives one scan step. -/
theorem mem_scanStep (h : String → Option String) (existing : List String)
    (acc : List RegRow × List String) (pc : String × String) (q : RegRow)
    (hq : q ∈ acc.1) : q ∈ (scanStep h existing acc pc).1 := by
  rw [scanStep]
  by_cases hp : pc.1 ∈ existing
  · rw [if_pos hp]; exact hq
  · rw [if_neg hp]
    cases hh : h pc.2 with
    | none => exact hq
    | some fp => exact mem_registryInsert _ _ _ hq

/-- A registry row survives the whole scan fold. -/
theorem mem_foldl_scanStep (h : String → Option String) (existing : List String)
    (files : List (String × String)) (acc : List RegRow × List String) (q : RegRow)
    (hq : q ∈ acc.1) : q ∈ (files.foldl (scanStep h existing) acc).1 := by
  induction files generalizing acc with
  | nil => exact hq
  | cons f fs ih => exact ih _ (mem_scanStep h existing acc f q hq)

/-- A fingerprint present in the table survives the scan fold. -/
theorem fp_mem_foldl_scanStep (h : String → Option String) (existing : List String)
    (files : List (String × String)) (acc : List RegRow × List String) (fp : String)
    (hfp : fp ∈ regFps acc.1) : fp ∈ regFps (files.foldl (scanStep h existing) acc).1 := by
  obtain ⟨q, hq, hqfp⟩ := List.mem_map.mp hfp
  exact hqfp ▸ List.mem_map_of_mem _ (mem_foldl_scanStep h existing files acc q hq)

/-- Processing one unknown file whose hash succeeds puts its
fingerprint in the table. -/
theorem fp_mem_scanStep (h : String → Option String) (existing : List String)
    (acc : List RegRow × List String) (pc : String × String) (fp : String)
    (hnp : ¬ pc.1 ∈ existing) (hh : h pc.2 = some fp) :
    fp ∈ regFps (scanStep h existing acc pc).1 := by
  rw [scanStep, if_neg hnp, hh]
  exact fp_mem_registryInsert acc.1 { fingerprint := fp, path := pc.1, is_primary := 1 }

/-- After a completed scan, the fingerprint of every walked file that
was not path-skipped and hashed successfully is in the table. -/
theorem fp_covered_foldl_scanStep (h : String → Option String) (existing : List String)
    (files : List (String × String)) (acc : List RegRow × List String) :
    ∀ pc ∈ files, ¬ pc.1 ∈ existing → ∀ fp, h pc.2 = some fp →
      fp ∈ regFps (files.foldl (scanStep h existing) acc).1 := by
  induction files generalizing acc with
  | nil => intro pc hpc; cases hpc
  | cons f fs ih =>
    intro pc hpc hnp fp hh
    rcases List.mem_cons.mp hpc with rfl | hpc
    · exact fp_mem_foldl_scanStep h existing fs _ fp (fp_mem_scanStep h existing acc pc fp hnp hh)
    · exact ih (scanStep h existing acc f) pc hpc hnp fp hh

/-- If every walked file is either path-known or has its fingerprint
already in the table, the scan fold leaves the table untouched. -/
theorem foldl_scanStep_stationary (h : String → Option String) (existing : List String)
    (files : List (String × String)) (t : List RegRow) (l : List String)
    (hcov : ∀ pc ∈ files, ¬ pc.1 ∈ existing → ∀ fp, h pc.2 = some fp → fp ∈ regFps t) :
    (files.foldl (scanStep h existing) (t, l)).1 = t := by
  induction files generalizing l with
  | nil => rfl
  | cons f fs ih =>
    have hstep : ∃ l', scanStep h existing (t, l) f = (t, l') := by
      rw [scanStep]
      by_cases hp : f.1 ∈ existing
      · exact ⟨l, by rw [if_pos hp]⟩
      · rw [if_neg hp]
        cases hh : h f.2 with
        | none => exact ⟨l ++ [f.1], rfl⟩
        | some fp =>
          refine ⟨l ++ [f.1], ?_⟩
          show (registryInsert t { fingerprint := fp, path := f.1, is_primary := 1 },
              l ++ [f.1]) = (t, l ++ [f.1])
          rw [registryInsert, if_pos (hcov f (List.mem_cons_self _ _) hp fp hh)]
    obtain ⟨l', hl'⟩ := hstep
    rw [List.foldl_cons, hl']
    exact ih l' (fun pc hpc => hcov pc (List.mem_cons_of_mem _ hpc))

/-- Claim C8, amended: a second completed scan over an unchanged tree
inserts no registry row at all — the table is exactly the first run's —
even though paths whose fingerprint collapsed into another path's row
(duplicate content) are absent from the known-path set and so are
rehashed rather than skipped. -/
theorem c8_second_scan_adds_nothing (h : String → Option String)
    (files : List (String × String)) (reg : List RegRow) :
    (scannerRun h files (scannerRun h files reg).1).1 = (scannerRun h files reg).1 := by
  rw [scannerRun]
  apply foldl_scanStep_stationary
  intro pc hpc hnp fp hh
  have hreg_sub : ∀ q ∈ reg, q ∈ (scannerRun h files reg).1 := fun q hq =>
    mem_foldl_scanStep h (regPaths reg) files (reg, []) q hq
  have hnp0 : ¬ pc.1 ∈ regPaths reg := by
    intro hc
    obtain ⟨q, hq, hqp⟩ := List.mem_map.mp hc
    exact hnp (hqp ▸ List.mem_map_of_mem _ (hreg_sub q hq))
  exact fp_covered_foldl_scanStep h (regPaths reg) files (reg, []) pc hpc hnp0 fp hh

/-- One sub-batch step: the checkpoint list stays a chain of
componentwise non-decreasing writes, every write stays bounded by the
cycle's processed value and the running fact count, the fact count
never decreases, and proc_count is untouched. -/
theorem cycleStep_spec (env : ReasonerEnv) (bl bp : Nat) (s : ReasonerState)
    (sub : List ((String × String) × String))
    (hchain : List.Chain' (fun a b : Nat × Nat => a.1 ≤ b.1 ∧ a.2 ≤ b.2) s.checkpoints)
    (hbound : ∀ w ∈ s.checkpoints, w.1 ≤ bp + bl ∧ w.2 ≤ s.factCount) :
    List.Chain' (fun a b : Nat × Nat => a.1 ≤ b.1 ∧ a.2 ≤ b.2)
      (cycleStep env bl bp s sub).checkpoints ∧
    (∀ w ∈ (cycleStep env bl bp s sub).checkpoints,
      w.1 ≤ bp + bl ∧ w.2 ≤ (cycleStep env bl bp s sub).factCount) ∧
    s.factCount ≤ (cycleStep env bl bp s sub).factCount ∧
    (cycleStep env bl bp s sub).procCount = s.procCount := by
  rw [cycleStep]
  by_cases hres : chunkResults env sub = []
  · simp only [hres, if_pos rfl]
    exact ⟨hchain, hbound, le_refl _, rfl⟩
  · simp only [if_neg hres]
    refine ⟨?_, ?_, Nat.le_add_right _ _, by trivial⟩
    · rw [List.chain'_append]
      refine ⟨hchain, List.chain'_singleton _, ?_⟩
      intro x hx y hy
      simp only [List.head?_cons, Option.mem_def, Option.some.injEq] at hy
      obtain ⟨hne, rfl⟩ := List.mem_getLast?_eq_getLast hx
      have hb := hbound _ (List.getLast_mem hne)
      exact hy ▸ ⟨hb.1, le_trans hb.2 (Nat.le_add_right _ _)⟩
    · intro w hw
      rcases List.mem_append.mp hw with hw | hw
      · exact ⟨(hbound w hw).1, le_trans (hbound w hw).2 (Nat.le_add_right _ _)⟩
      · simp only [List.mem_singleton] at hw
        exact hw ▸ ⟨le_refl _, le_refl _⟩

/-- The chunk fold keeps the checkpoint invariants of cycleStep_spec. -/
theorem cycleStep_fold_spec (env : ReasonerEnv) (bl bp : Nat)
    (subs : List (List ((String × String) × String))) (s : ReasonerState)
    (hchain : List.Chain' (fun a b : Nat × Nat => a.1 ≤ b.1 ∧ a.2 ≤ b.2) s.checkpoints)
    (hbound : ∀ w ∈ s.checkpoints, w.1 ≤ bp + bl ∧ w.2 ≤ s.factCount) :
    List.Chain' (fun a b : Nat × Nat => a.1 ≤ b.1 ∧ a.2 ≤ b.2)
      (subs.foldl (cycleStep env bl bp) s).checkpoints ∧
    (∀ w ∈ (subs.foldl (cycleStep env bl bp) s).checkpoints,
      w.1 ≤ bp + bl ∧ w.2 ≤ (subs.foldl (cycleStep env bl bp) s).factCount) ∧
    s.factCount ≤ (subs.foldl (cycleStep env bl bp) s).factCount ∧
    (subs.foldl (cycleStep env bl bp) s).procCount = s.procCount := by
  induction subs generalizing s with
  | nil => exact ⟨hchain, hbound, le_refl _, rfl⟩
  | cons sub subs ih =>
    rw [List.foldl_cons]
    obtain ⟨h1, h2, h3, h4⟩ := cycleStep_spec env bl bp s sub hchain hbound
    obtain ⟨g1, g2, g3, g4⟩ := ih (cycleStep env bl bp s sub) h1 h2
    exact ⟨g1, g2, le_trans h3 g3, by rw [g4, h4]⟩

/-- One cycle keeps the run-level checkpoint invariant: the write list
is a chain and every write is bounded by the counters. -/
theorem runCycle_ckpt_inv (env : ReasonerEnv) (fetched : List (String × String))
    (st : ReasonerState)
    (hchain : List.Chain' (fun a b : Nat × Nat => a.1 ≤ b.1 ∧ a.2 ≤ b.2) st.checkpoints)
    (hbound : ∀ w ∈ st.checkpoints, w.1 ≤ st.procCount ∧ w.2 ≤ st.factCount) :
    List.Chain' (fun a b : Nat × Nat => a.1 ≤ b.1 ∧ a.2 ≤ b.2)
      (runCycle env fetched st).checkpoints ∧
    ∀ w ∈ (runCycle env fetched st).checkpoints,
      w.1 ≤ (runCycle env fetched st).procCount ∧
        w.2 ≤ (runCycle env fetched st).factCount := by
  rw [runCycle]
  by_cases hpm : promptsOf env (cappedBatch env fetched) = []
  · simp only [hpm, if_pos rfl]
    exact ⟨hchain, hbound⟩
  · simp only [if_neg hpm]
    have hb2 : ∀ w ∈ st.checkpoints,
        w.1 ≤ st.procCount + (cappedBatch env fetched).length ∧ w.2 ≤ st.factCount :=
      fun w hw => ⟨le_trans (hbound w hw).1 (Nat.le_add_right _ _), (hbound w hw).2⟩
    obtain ⟨g1, g2, _, _⟩ := cycleStep_fold_spec env (cappedBatch env fetched).length
      st.procCount (cycleSubs env (cappedBatch env fetched)) st hchain hb2
    exact ⟨g1, g2⟩

/-- Claim C9: across the checkpoint writes of a single Reasoner run —
starting from fresh counters, over any sequence of fetched batches and
any backend behaviour — the processed count and the total_facts count
are non-decreasing in write order. -/
theorem c9_checkpoints_monotone (env : ReasonerEnv)
    (batches : List (List (String × String))) (intel : List IntelRow) :
    List.Chain' (fun a b : Nat × Nat => a.1 ≤ b.1 ∧ a.2 ≤ b.2)
      (runCycles env batches (initialState intel)).checkpoints := by
  suffices h : ∀ (bs : List (List (String × String))) (st : ReasonerState),
      List.Chain' (fun a b : Nat × Nat => a.1 ≤ b.1 ∧ a.2 ≤ b.2) st.checkpoints →
      (∀ w ∈ st.checkpoints, w.1 ≤ st.procCount ∧ w.2 ≤ st.factCount) →
      List.Chain' (fun a b : Nat × Nat => a.1 ≤ b.1 ∧ a.2 ≤ b.2)
          (runCycles env bs st).checkpoints ∧
        ∀ w ∈ (runCycles env bs st).checkpoints,
          w.1 ≤ (runCycles env bs st).procCount ∧ w.2 ≤ (runCycles env bs st).factCount by
    exact (h batches (initialState intel) (by simp [initialState]) (by simp [initialState])).1
  intro bs
  induction bs with
  | nil => intro st h1 h2; exact ⟨h1, h2⟩
  | cons b bs ih =>
    intro st h1 h2
    have hstep := runCycle_ckpt_inv env b st h1 h2
    have : runCycles env (b :: bs) st = runCycles env bs (runCycle env b st) := rfl
    rw [this]
    exact ih (runCycle env b st) hstep.1 hstep.2

/-- An INSERT OR REPLACE can only remove a row whose whole primary key
— fingerprint included — matches the incoming row, so the set of
fingerprints present never shrinks. -/
theorem fpMem_upsertRow (t : List IntelRow) (q : IntelRow) (fp : String)
    (h : (∃ r ∈ t, r.fingerprint = fp) ∨ q.fingerprint = fp) :
    ∃ r ∈ upsertRow t q, r.fingerprint = fp := by
  rw [upsertRow]
  rcases h with ⟨r, hr, hfp⟩ | hq
  · by_cases hk : intelKey r = intelKey q
    · refine ⟨q, List.mem_append_right _ (by simp), ?_⟩
      have hq : r.fingerprint = q.fingerprint := congrArg (fun x => x.1) hk
      rw [← hq]; exact hfp
    · refine ⟨r, List.mem_append_left _ (List.mem_filter.mpr ⟨hr, ?_⟩), hfp⟩
      simpa using hk
  · exact ⟨q, List.mem_append_right _ (by simp), hq⟩

/-- A fingerprint present in the table or in the written batch is
present after the batched upsert. -/
theorem fpMem_upsertFacts (t rs : List IntelRow) (fp : String)
    (h : (∃ r ∈ t, r.fingerprint = fp) ∨ ∃ r ∈ rs, r.fingerprint = fp) :
    ∃ r ∈ upsertFacts t rs, r.fingerprint = fp := by
  induction rs generalizing t with
  | nil =>
    rcases h with h | ⟨r, hr, _⟩
    · exact h
    · cases hr
  | cons q qs ih =>
    show ∃ r ∈ upsertFacts (upsertRow t q) qs, r.fingerprint = fp
    apply ih
    rcases h with h | ⟨r, hr, hfp⟩
    · exact Or.inl (fpMem_upsertRow t q fp (Or.inl h))
    · rcases List.mem_cons.mp hr with rfl | hr
      · exact Or.inl (fpMem_upsertRow t r fp (Or.inr hfp))
      · exact Or.inr ⟨r, hr, hfp⟩

/-- A fingerprint survives — or is added by — one sub-batch step. -/
theorem fpMem_cycleStep (env : ReasonerEnv) (bl bp : Nat) (s : ReasonerState)
    (sub : List ((String × String) × String)) (fp : String)
    (h : (∃ r ∈ s.intel, r.fingerprint = fp) ∨
         ∃ r ∈ chunkResults env sub, r.fingerprint = fp) :
    ∃ r ∈ (cycleStep env bl bp s sub).intel, r.fingerprint = fp := by
  rw [cycleStep]
  by_cases hres : chunkResults env sub = []
  · simp only [hres, if_pos rfl]
    rcases h with h | ⟨r, hr, _⟩
    · exact h
    · rw [hres] at hr; cases hr
  · simp only [if_neg hres]
    exact fpMem_upsertFacts _ _ _ h

/-- A fingerprint present in the state or parsed anywhere in the cycle
is present after the chunk fold. -/
theorem fpMem_foldl_cycleStep (env : ReasonerEnv) (bl bp : Nat)
    (subs : List (List ((String × String) × String))) (s : ReasonerState) (fp : String)
    (h : (∃ r ∈ s.intel, r.fingerprint = fp) ∨
         ∃ r ∈ ((subs.map (chunkResults env)).flatten), r.fingerprint = fp) :
    ∃ r ∈ (subs.foldl (cycleStep env bl bp) s).intel, r.fingerprint = fp := by
  induction subs generalizing s with
  | nil =>
    rcases h with h | ⟨r, hr, _⟩
    · exact h
    · simp at hr
  | cons sub subs ih =>
    rw [List.foldl_cons]
    apply ih
    rcases h with h | ⟨r, hr, hfp⟩
    · exact Or.inl (fpMem_cycleStep env bl bp s sub fp (Or.inl h))
    · rw [List.map_cons, List.flatten_cons] at hr
      rcases List.mem_append.mp hr with hr | hr
      · exact Or.inl (fpMem_cycleStep env bl bp s sub fp (Or.inr ⟨r, hr, hfp⟩))
      · exact Or.inr ⟨r, hr, hfp⟩

/-- In a cycle that produced at least one prompt, every fingerprint of
the capped batch ends up with an Intelligence row: through its parsed
facts when it produced any, through its placeholder otherwise. -/
theorem runCycle_covers (env : ReasonerEnv) (fetched : List (String × String))
    (st : ReasonerState) (fp path : String)
    (hpm : ¬ promptsOf env (cappedBatch env fetched) = [])
    (hmem : (fp, path) ∈ cappedBatch env fetched) :
    ∃ r ∈ (runCycle env fetched st).intel, r.fingerprint = fp := by
  rw [runCycle]
  simp only [if_neg hpm]
  by_cases hfp : fp ∈ processedFpsOf env (cappedBatch env fetched)
  · refine fpMem_upsertFacts _ _ _ (Or.inl ?_)
    refine fpMem_foldl_cycleStep env _ _ _ st fp (Or.inr ?_)
    rw [processedFpsOf] at hfp
    exact List.mem_map.mp hfp
  · refine fpMem_upsertFacts _ _ _ (Or.inr ?_)
    refine ⟨placeholderRow fp path, ?_, rfl⟩
    rw [placeholdersOf]
    exact List.mem_map.mpr ⟨(fp, path), List.mem_filter.mpr ⟨hmem, by simpa using hfp⟩, rfl⟩

/-- Intelligence fingerprints survive a whole later cycle. -/
theorem fpMem_runCycle (env : ReasonerEnv) (fetched : List (String × String))
    (st : ReasonerState) (fp : String)
    (h : ∃ r ∈ st.intel, r.fingerprint = fp) :
    ∃ r ∈ (runCycle env fetched st).intel, r.fingerprint = fp := by
  rw [runCycle]
  by_cases hpm : promptsOf env (cappedBatch env fetched) = []
  · simp only [hpm, if_pos rfl]; exact h
  · simp only [if_neg hpm]
    exact fpMem_upsertFacts _ _ _
      (Or.inl (fpMem_foldl_cycleStep env _ _ _ st fp (Or.inl h)))

/-- Intelligence fingerprints survive any number of later cycles. -/
theorem fpMem_runCycles (env : ReasonerEnv) (batches : List (List (String × String)))
    (st : ReasonerState) (fp : String)
    (h : ∃ r ∈ st.intel, r.fingerprint = fp) :
    ∃ r ∈ (runCycles env batches st).intel, r.fingerprint = fp := by
  induction batches generalizing st with
  | nil => exact h
  | cons b bs ih => exact ih (runCycle env b st) (fpMem_runCycle env b st fp h)

/-- The diff query never returns a fingerprint that has an
Intelligence row: the anti-join on fingerprint excludes it. -/
theorem diff_excludes_fp (probe : String → Bool) (limit : Nat) (reg : List RegRow)
    (intel : List IntelRow) (fp : String)
    (h : ∃ r ∈ intel, r.fingerprint = fp) :
    ∀ pr ∈ diffUnprocessed probe limit reg intel, ¬ pr.1 = fp := by
  intro pr hpr hfp1
  obtain ⟨r0, hr0, hfp0⟩ := h
  rw [diffUnprocessed, pathFilter] at hpr
  obtain ⟨rr, hrr0, hpr2⟩ := List.mem_map.mp (List.mem_of_mem_filter hpr)
  have hfilt := (List.mem_filter.mp (List.mem_of_mem_take hrr0)).2
  simp only [Bool.not_eq_true', List.any_eq_false, decide_eq_false_iff_not] at hfilt
  apply hfilt r0 hr0
  subst hpr2
  simp only [decide_eq_true_eq]
  rw [hfp0, ← hfp1]

/-- Claim C2, amended: for every pair of the cycle's batch after the
max_files_per_cycle cap, provided at least one file of the capped batch
yielded a prompt, the cycle leaves at least one Intelligence row for
that fingerprint — a parsed fact or the placeholder — and no diff
query after this or any number of further cycles returns that
fingerprint again. -/
theorem c2_batch_row_guaranteed (env : ReasonerEnv) (fetched : List (String × String))
    (st : ReasonerState) (fp path : String)
    (hmem : (fp, path) ∈ cappedBatch env fetched)
    (hpm : ¬ promptsOf env (cappedBatch env fetched) = []) :
    (∃ r ∈ (runCycle env fetched st).intel, r.fingerprint = fp) ∧
    ∀ (env2 : ReasonerEnv) (batches : List (List (String × String)))
      (probe : String → Bool) (limit : Nat) (reg : List RegRow),
      ∀ pr ∈ diffUnprocessed probe limit reg
        (runCycles env2 batches (runCycle env fetched st)).intel, ¬ pr.1 = fp := by
  have h1 := runCycle_covers env fetched st fp path hpm hmem
  exact ⟨h1, fun env2 batches probe limit reg =>
    diff_excludes_fp probe limit reg _ fp (fpMem_runCycles env2 batches _ fp h1)⟩

/-- Witness for c2_batch_row_guaranteed on a two-file batch whose
second file extracts. -/
theorem c2_batch_row_guaranteed_witness :
    (("f2", "b.txt") ∈ cappedBatch
        ⟨fun p => if p = "b.txt" then some "hello" else none, fun _ => "", fun _ => true, 20, 64⟩
        [("f1", "a.txt"), ("f2", "b.txt")] ∧
      ¬ promptsOf
        ⟨fun p => if p = "b.txt" then some "hello" else none, fun _ => "", fun _ => true, 20, 64⟩
        (cappedBatch
          ⟨fun p => if p = "b.txt" then some "hello" else none, fun _ => "", fun _ => true, 20, 64⟩
          [("f1", "a.txt"), ("f2", "b.txt")]) = []) ∧
    ∃ r ∈ (runCycle
        ⟨fun p => if p = "b.txt" then some "hello" else none, fun _ => "", fun _ => true, 20, 64⟩
        [("f1", "a.txt"), ("f2", "b.txt")] (initialState [])).intel, r.fingerprint = "f2" :=
  ⟨⟨by decide, by decide⟩,
    (c2_batch_row_guaranteed
      ⟨fun p => if p = "b.txt" then some "hello" else none, fun _ => "", fun _ => true, 20, 64⟩
      [("f1", "a.txt"), ("f2", "b.txt")] (initialState []) "f2" "b.txt"
      (by decide) (by decide)).1⟩

/-- The surviving batch of the adaptive loop is always some subset of
the sub-batch it started from (a truncated prefix, in fact). -/
theorem genLoopF_survivors_sub (fuel : Nat) (accepts : Nat → Bool) (sub : List α)
    (k : Nat) : ∀ m ∈ (genLoopF fuel accepts sub k).2, m ∈ sub := by
  induction fuel generalizing sub k with
  | zero => intro m hm; simp [genLoopF] at hm
  | succ fuel ih =>
    intro m hm
    rw [genLoopF] at hm
    by_cases h1 : accepts sub.length
    · rw [if_pos h1] at hm; exact hm
    · rw [if_neg h1] at hm
      by_cases h2 : max 1 (k / 2) = 1
      · rw [if_pos h2] at hm; cases hm
      · rw [if_neg h2] at hm
        exact List.mem_of_mem_take (ih _ _ m hm)

/-- Every element of every slice is an element of the sliced list. -/
theorem mem_of_mem_chunksOfF (fuel k : Nat) (l sub : List α)
    (hsub : sub ∈ chunksOfF fuel k l) : ∀ m ∈ sub, m ∈ l := by
  induction fuel generalizing l with
  | zero => cases l <;> simp [chunksOfF] at hsub
  | succ fuel ih =>
    cases l with
    | nil => simp [chunksOfF] at hsub
    | cons x xs =>
      rw [chunksOfF] at hsub
      by_cases hk : k = 0
      · rw [if_pos hk] at hsub; cases hsub
      · rw [if_neg hk] at hsub
        rcases List.mem_cons.mp hsub with rfl | hsub
        · exact fun m hm => List.mem_of_mem_take hm
        · exact fun m hm => List.mem_of_mem_drop (ih _ hsub m hm)

/-- Every row parsed from a response carries the fingerprint it was
tagged with. -/
theorem factRowsOf_fp (fp fname raw : String) :
    ∀ r ∈ factRowsOf fp fname raw, r.fingerprint = fp := by
  intro r hr
  rw [factRowsOf] at hr
  obtain ⟨f, _, rfl⟩ := List.mem_map.mp hr
  rfl

/-- Every row parsed out of a sub-batch carries the fingerprint of one
of the sub-batch's meta tags. -/
theorem chunkResults_source (env : ReasonerEnv) (sub : List ((String × String) × String)) :
    ∀ r ∈ chunkResults env sub, ∃ m ∈ sub, r.fingerprint = m.1.1 := by
  intro r hr
  rw [chunkResults] at hr
  obtain ⟨l, hl, hrl⟩ := List.mem_flatten.mp hr
  obtain ⟨m, hm, rfl⟩ := List.mem_map.mp hl
  exact ⟨m, genLoopF_survivors_sub _ _ _ _ m hm, factRowsOf_fp _ _ _ r hrl⟩

/-- Every prompt's meta fingerprint comes from some extraction. -/
theorem promptsOf_source (env : ReasonerEnv) (batch : List (String × String)) :
    ∀ m ∈ promptsOf env batch, ∃ e ∈ extractionsOf env batch, m.1.1 = e.1 := by
  intro m hm
  rw [promptsOf] at hm
  obtain ⟨l, hl, hml⟩ := List.mem_flatten.mp hm
  obtain ⟨e, he, rfl⟩ := List.mem_map.mp hl
  obtain ⟨c, _, rfl⟩ := List.mem_map.mp hml
  exact ⟨e, he, rfl⟩

/-- Every extraction triple comes from a batch entry whose extraction
returned nonempty text. -/
theorem extractionsOf_source (env : ReasonerEnv) (batch : List (String × String)) :
    ∀ e ∈ extractionsOf env batch,
      ∃ q t, (e.1, q) ∈ batch ∧ env.extract q = some t ∧ ¬ t = "" := by
  intro e he
  rw [extractionsOf] at he
  obtain ⟨a, ha, hfa⟩ := List.mem_filterMap.mp he
  split at hfa
  · exact absurd hfa (by simp)
  · rename_i t heq
    split at hfa
    · exact absurd hfa (by simp)
    · rename_i ht
      obtain rfl := Option.some.inj hfa
      exact ⟨a.2, t, by simpa using ha, heq, ht⟩

/-- A fingerprint in processed_fps traces back to a batch entry whose
extraction returned nonempty text. -/
theorem processedFps_source (env : ReasonerEnv) (batch : List (String × String))
    (fp : String) (hfp : fp ∈ processedFpsOf env batch) :
    ∃ q t, (fp, q) ∈ batch ∧ env.extract q = some t ∧ ¬ t = "" := by
  rw [processedFpsOf] at hfp
  obtain ⟨r, hr, rfl⟩ := List.mem_map.mp hfp
  obtain ⟨l, hl, hrl⟩ := List.mem_flatten.mp hr
  obtain ⟨sub, hsub, rfl⟩ := List.mem_map.mp hl
  obtain ⟨m, hm, hfpm⟩ := chunkResults_source env sub r hrl
  obtain ⟨e, he, hme⟩ := promptsOf_source env batch m
    (mem_of_mem_chunksOfF _ _ _ sub hsub m hm)
  obtain ⟨q, t, hq, hx, ht⟩ := extractionsOf_source env batch e he
  exact ⟨q, t, by rw [hfpm, hme]; exact hq, hx, ht⟩

/-- A row already in the table survives an upsert whose row either has
a different key or is the very same row. -/
theorem mem_upsertRow_of_key (t : List IntelRow) (q r : IntelRow) (hr : r ∈ t)
    (hkey : intelKey q = intelKey r → q = r) : r ∈ upsertRow t q := by
  rw [upsertRow]
  by_cases hk : intelKey q = intelKey r
  · have := hkey hk; subst this
    exact List.mem_append_right _ (by simp)
  · refine List.mem_append_left _ (List.mem_filter.mpr ⟨hr, ?_⟩)
    simp only [decide_eq_true_eq]
    intro hc; exact hk hc.symm

/-- A written row whose key is unique within the written batch is in
the table after the batched upsert. -/
theorem mem_upsertFacts_of_key (t rs : List IntelRow) (r : IntelRow)
    (h : r ∈ t ∨ r ∈ rs)
    (hkey : ∀ q ∈ rs, intelKey q = intelKey r → q = r) : r ∈ upsertFacts t rs := by
  induction rs generalizing t with
  | nil =>
    rcases h with h | h
    · exact h
    · cases h
  | cons q qs ih =>
    show r ∈ upsertFacts (upsertRow t q) qs
    apply ih
    · rcases h with h | h
      · exact Or.inl (mem_upsertRow_of_key t q r h (hkey q (List.mem_cons_self _ _)))
      · rcases List.mem_cons.mp h with rfl | h
        · exact Or.inl (by rw [upsertRow]; exact List.mem_append_right _ (by simp))
        · exact Or.inr h
    · exact fun q' hq' => hkey q' (List.mem_cons_of_mem _ hq')

/-- Claim C4, amended: a file whose extraction raises or returns empty
text yields no parsed row, but it stays unprocessed — and is returned
again by the diff — only when no file of the capped batch yielded a
prompt, in which case the whole cycle writes nothing; otherwise the
failed file receives a placeholder row at the end of the cycle and so
is not retried. -/
theorem c4_extraction_failure (env : ReasonerEnv) (fetched : List (String × String))
    (st : ReasonerState) (fp path : String)
    (hmem : (fp, path) ∈ cappedBatch env fetched)
    (hfail : env.extract path = none ∨ env.extract path = some "")
    (huniq : ∀ q, (fp, q) ∈ cappedBatch env fetched → q = path) :
    (promptsOf env (cappedBatch env fetched) = [] → runCycle env fetched st = st) ∧
    (¬ promptsOf env (cappedBatch env fetched) = [] →
      placeholderRow fp path ∈ (runCycle env fetched st).intel) := by
  constructor
  · intro hpm; rw [runCycle]; simp [hpm]
  · intro hpm
    have hnfp : ¬ fp ∈ processedFpsOf env (cappedBatch env fetched) := by
      intro hfp
      obtain ⟨q, t, hq, hx, ht⟩ := processedFps_source env _ fp hfp
      have := huniq q hq; subst this
      rcases hfail with hfail | hfail
      · rw [hfail] at hx; cases hx
      · rw [hfail] at hx; exact ht (Option.some.inj hx).symm
    rw [runCycle]; simp only [if_neg hpm]
    apply mem_upsertFacts_of_key
    · right
      rw [placeholdersOf]
      exact List.mem_map.mpr ⟨(fp, path), List.mem_filter.mpr ⟨hmem, by simpa using hnfp⟩, rfl⟩
    · intro q' hq' hkq
      rw [placeholdersOf] at hq'
      obtain ⟨fpPath, hfpPath, rfl⟩ := List.mem_map.mp hq'
      have h1 : fpPath.1 = fp := congrArg (fun x => x.1) hkq
      have h2 := List.mem_of_mem_filter hfpPath
      have h3 : fpPath.2 = path := huniq fpPath.2 (by rw [← h1]; simpa using h2)
      rw [h1, h3]

/-- Witness for c4_extraction_failure: the failed file f1 next to the
successfully extracting f2. -/
theorem c4_extraction_failure_witness :
    ((("f1", "a.txt") ∈ cappedBatch
        ⟨fun p => if p = "b.txt" then some "hello" else none, fun _ => "", fun _ => true, 20, 64⟩
        [("f1", "a.txt"), ("f2", "b.txt")]) ∧
      (⟨fun p => if p = "b.txt" then some "hello" else none, fun _ => "", fun _ => true, 20, 64⟩ :
        ReasonerEnv).extract "a.txt" = none ∧
      ¬ promptsOf
        ⟨fun p => if p = "b.txt" then some "hello" else none, fun _ => "", fun _ => true, 20, 64⟩
        (cappedBatch
          ⟨fun p => if p = "b.txt" then some "hello" else none, fun _ => "", fun _ => true, 20, 64⟩
          [("f1", "a.txt"), ("f2", "b.txt")]) = []) ∧
    placeholderRow "f1" "a.txt" ∈ (runCycle
      ⟨fun p => if p = "b.txt" then some "hello" else none, fun _ => "", fun _ => true, 20, 64⟩
      [("f1", "a.txt"), ("f2", "b.txt")] (initialState [])).intel :=
  ⟨⟨by decide, by decide, by decide⟩,
    (c4_extraction_failure
      ⟨fun p => if p = "b.txt" then some "hello" else none, fun _ => "", fun _ => true, 20, 64⟩
      [("f1", "a.txt"), ("f2", "b.txt")] (initialState []) "f1" "a.txt"
      (by decide) (Or.inl (by decide))
      (by
        intro q hq
        have hq' : ("f1", q) ∈ [("f1", "a.txt"), ("f2", "b.txt")] := hq
        simpa using hq')).2 (by decide)⟩

end SteinLine
